import Mathlib

/-!
Verification of the byte-struct codec library (crates byte_struct and
byte_struct_derive).

Buffers are modelled as `List Nat` of byte values; machine integers are
modelled as `Nat` with explicit `% 2 ^ w` where the machine width matters.
Floating point values are modelled by their IEEE bit patterns (a `Nat`),
which is faithful because the source code only ever manipulates a float
through `to_bits` / `from_bits` and never performs float arithmetic;
distinct bit patterns of finite, nonzero doubles denote distinct values.
-/

namespace ByteStructVerif

/-- Little-endian byte encoding of an `n`-byte unsigned integer.
Models the Rust `to_le_bytes` of the fixed-width unsigned types:
byte 0 is the least significant. -/
def toLeBytes : Nat → Nat → List Nat
  | 0, _ => []
  | n + 1, v => (v % 256) :: toLeBytes n (v / 256)

/-- Big-endian byte encoding, as in Rust `to_be_bytes`: the bytes of
`to_le_bytes` in reverse order. -/
def toBeBytes (n v : Nat) : List Nat :=
  (toLeBytes n v).reverse

/-- Models Rust `from_le_bytes`: recompose an unsigned integer from bytes,
byte 0 least significant. -/
def fromLeBytes : List Nat → Nat
  | [] => 0
  | b :: bs => b + 256 * fromLeBytes bs

/-- Models Rust `from_be_bytes`: byte 0 is most significant. -/
def fromBeBytes (bs : List Nat) : Nat :=
  fromLeBytes bs.reverse

/-- Models one field write into a mutable byte slice:
`bytes[pos .. pos + data.len()].copy_from_slice(data)`.
Rust panics when the range `pos .. pos + len` exceeds the buffer; we return
`none` in that case (the buffer is untouched at the moment of the panic),
and otherwise the buffer with the range replaced by `data`. -/
def writeSlice (buf : List Nat) (pos : Nat) (data : List Nat) : Option (List Nat) :=
  if pos + data.length ≤ buf.length then
    some (buf.take pos ++ data ++ buf.drop (pos + data.length))
  else
    none

/-- Models the `write_bytes` body generated by the derive macro
(byte_struct_derive/src/lib.rs, lines 196-203): starting from `cur`,
write each field chunk at the cursor and advance the cursor by the
field byte length.  On success returns the final buffer and the final
cursor; on a panic (a chunk does not fit) returns the buffer as it is
at that moment. -/
def writeFields : List (List Nat) → List Nat → Nat → Except (List Nat) (List Nat × Nat)
  | [], buf, cur => .ok (buf, cur)
  | d :: ds, buf, cur =>
    match writeSlice buf cur d with
    | some buf2 => writeFields ds buf2 (cur + d.length)
    | none => .error buf

/-- The buffer contents after the generated `write_bytes` stops: every
chunk up to the first one that does not fit has been written, the rest of
the buffer keeps its prior bytes.  This is the reference description of
the buffer carried by the `.error` case of `writeFields`. -/
def writeFitting : List (List Nat) → List Nat → Nat → List Nat
  | [], buf, _ => buf
  | d :: ds, buf, cur =>
    match writeSlice buf cur d with
    | some buf2 => writeFitting ds buf2 (cur + d.length)
    | none => buf

/-- Total byte length of a list of field chunks. -/
def chunkLen (ds : List (List Nat)) : Nat :=
  (ds.map List.length).sum

/-- Models the `BYTE_LEN` constant emitted by the derive macro
(byte_struct_derive/src/lib.rs, line 216): the sum of the byte lengths of
the fields. -/
def compositeByteLen (lens : List Nat) : Nat :=
  lens.sum

/-- Models the `BYTE_LEN` of `[T; N]` from the byte_struct_array macro
(byte_struct/src/lib.rs, line 381): `N * T::BYTE_LEN`. -/
def arrayByteLen (n len : Nat) : Nat :=
  n * len

/-- A type implementing the `ByteStruct` trait: a self-describing
composite with its own `write_bytes` and `read_bytes`. -/
structure ByteStructInst (α : Type) where
  byteLen : Nat
  write_bytes : α → List Nat → List Nat
  read_bytes : List Nat → α

/-- Models `write_bytes_default_le` from the blanket
`impl<T: ByteStruct> ByteStructUnspecifiedByteOrder for T`
(byte_struct/src/lib.rs, lines 104-106): it calls `write_bytes`. -/
def write_bytes_default_le {α : Type} (inst : ByteStructInst α) (v : α) (buf : List Nat) : List Nat :=
  inst.write_bytes v buf

/-- Models `read_bytes_default_le` from the blanket impl (lines 108-110). -/
def read_bytes_default_le {α : Type} (inst : ByteStructInst α) (bs : List Nat) : α :=
  inst.read_bytes bs

/-- Models `write_bytes_default_be` from the blanket impl (lines 112-114). -/
def write_bytes_default_be {α : Type} (inst : ByteStructInst α) (v : α) (buf : List Nat) : List Nat :=
  inst.write_bytes v buf

/-- Models `read_bytes_default_be` from the blanket impl (lines 116-118). -/
def read_bytes_default_be {α : Type} (inst : ByteStructInst α) (bs : List Nat) : α :=
  inst.read_bytes bs

/-- Models the `from_raw` function generated by the bitfields macro
(byte_struct/src/lib.rs, lines 514-522): for each declared bit width `w`
in order, mask the running value with `(1 << w) - 1` and then shift the
running value right by `w`.  The first list element is the field at the
least significant bits. -/
def from_raw : List Nat → Nat → List Nat
  | [], _ => []
  | w :: ws, r => (r &&& (1 <<< w - 1)) :: from_raw ws (r >>> w)

/-- Models the `to_raw` function generated by the bitfields macro
(byte_struct/src/lib.rs, lines 524-532) for a base type of bit width `W`:
`raw |= self.field << pos; pos += w` for each field in order, starting
from `raw = 0` and `pos = 0`.  The stored field value is NOT masked; the
left shift on the `W`-bit base type discards bits above `W`, hence the
`% 2 ^ W`. -/
def to_raw (W : Nat) : List Nat → List Nat → Nat → Nat
  | w :: ws, f :: fs, pos => ((f <<< pos) % 2 ^ W) ||| to_raw W ws fs (pos + w)
  | _, _, _ => 0

/-- The value of a field list seen as mixed-radix digits, least
significant field first: the intended result of packing when every field
fits its declared width. -/
def valueOf : List Nat → List Nat → Nat
  | w :: ws, f :: fs => f + valueOf ws fs <<< w
  | _, _ => 0

/-- Every field value is strictly below `2 ^ w` for its declared width
`w` (and the two lists have matching shape). -/
def fits : List Nat → List Nat → Bool
  | [], [] => true
  | w :: ws, f :: fs => decide (f < 2 ^ w) && fits ws fs
  | _, _ => false

/-- Models `u8::write_bytes_default_le` (byte_struct/src/lib.rs,
lines 126-128): `to_le_bytes` of a one-byte value. -/
def u8_write_le (v : Nat) : List Nat :=
  toLeBytes 1 v

/-- Models `u16::write_bytes_default_le` (lines 164-166). -/
def u16_write_le (v : Nat) : List Nat :=
  toLeBytes 2 v

/-- Models `u16::write_bytes_default_be` (lines 170-172). -/
def u16_write_be (v : Nat) : List Nat :=
  toBeBytes 2 v

/-- Models `u32::write_bytes_default_le` (lines 202-204). -/
def u32_write_le (v : Nat) : List Nat :=
  toLeBytes 4 v

/-- Models `f32::read_bytes_default_be` (byte_struct/src/lib.rs,
lines 350-352): `f32::from_bits(u32::from_be_bytes(...))`, at the level
of bit patterns. -/
def f32_read_be (bs : List Nat) : Nat :=
  fromBeBytes (bs.take 4)

/-- Models `f64::write_bytes_default_be` (byte_struct/src/lib.rs,
lines 368-370): `self.to_bits().to_be_bytes()`, at the level of bit
patterns. -/
def f64_write_be (bits : Nat) : List Nat :=
  toBeBytes 8 bits

/-- Models `f64::read_bytes_default_be` (byte_struct/src/lib.rs,
lines 371-375).  Note that the source constructs the bit pattern with
`u64::from_le_bytes`, not `from_be_bytes`. -/
def f64_read_be (bs : List Nat) : Nat :=
  fromLeBytes (bs.take 8)

/-- Models the generated `write_bytes` of a struct deriving
`ByteStructBE` whose single field is an `f64`: the field is written with
`write_bytes_default_be` at cursor 0. -/
def f64BeStruct_write (bits : Nat) (buf : List Nat) : Except (List Nat) (List Nat × Nat) :=
  writeFields [f64_write_be bits] buf 0

/-- Models the generated `read_bytes` of the same struct: the single
field is read with `read_bytes_default_be` from the slice at cursor 0. -/
def f64BeStruct_read (bs : List Nat) : Nat :=
  f64_read_be (bs.take 8)

/-- The field chunks written by the generated `write_bytes` of the spec
scenario composite: fields `u8`, `u16` (explicit big-endian), `[u16; 3]`
(little-endian container default), `u32` (little-endian container
default).  The array field loop (byte_struct/src/lib.rs, lines 385-392)
writes its elements at consecutive offsets inside the array slice, so
the flat sequence of primitive writes is exactly this chunk list. -/
def demoChunks (a b d0 d1 d2 e : Nat) : List (List Nat) :=
  [u8_write_le a, u16_write_be b, u16_write_le d0, u16_write_le d1, u16_write_le d2, u32_write_le e]

/-- Models the generated `write_bytes` of the spec scenario composite. -/
def demo_write (a b d0 d1 d2 e : Nat) (buf : List Nat) : Except (List Nat) (List Nat × Nat) :=
  writeFields (demoChunks a b d0 d1 d2 e) buf 0

/-- The `BYTE_LEN` of the spec scenario composite: sum of the four field
byte lengths, with the array length `3 * u16::BYTE_LEN`. -/
def demoByteLen : Nat :=
  compositeByteLen [1, 2, arrayByteLen 3 2, 4]

/-- A value below `2 ^ k` and a value shifted up by `k` occupy disjoint
bits, so their bitwise or is their sum. -/
theorem lor_shiftLeft_eq_add {k a : Nat} (b : Nat) (h : a < 2 ^ k) :
    a ||| b <<< k = a + b <<< k := by
  have h2 := Nat.mul_add_lt_is_or h b
  calc a ||| b <<< k = 2 ^ k * b ||| a := by
        rw [Nat.shiftLeft_eq, Nat.mul_comm, Nat.lor_comm]
    _ = 2 ^ k * b + a := h2.symm
    _ = a + b <<< k := by rw [Nat.shiftLeft_eq, Nat.mul_comm, Nat.add_comm]

/-- The head operation of `from_raw` is a mod by `2 ^ w`. -/
theorem and_mask_eq_mod (r w : Nat) : r &&& (1 <<< w - 1) = r % 2 ^ w := by
  rw [Nat.one_shiftLeft, Nat.and_pow_two_sub_one_eq_mod]

/-- Every field extracted by `from_raw` fits its declared width. -/
theorem fits_from_raw : ∀ (ws : List Nat) (r : Nat), fits ws (from_raw ws r) = true := by
  intro ws
  induction ws with
  | nil => intro r; rfl
  | cons w ws ih =>
    intro r
    simp only [from_raw, fits, and_mask_eq_mod, Bool.and_eq_true, decide_eq_true_eq]
    exact ⟨Nat.mod_lt _ (Nat.two_pow_pos w), ih (r >>> w)⟩

/-- A fitting field list composes to a value below `2 ^ (sum of widths)`. -/
theorem valueOf_lt : ∀ (ws fs : List Nat), fits ws fs = true →
    valueOf ws fs < 2 ^ ws.sum := by
  intro ws
  induction ws with
  | nil =>
    intro fs h
    cases fs with
    | nil => simp [valueOf]
    | cons f fs => simp [fits] at h
  | cons w ws ih =>
    intro fs h
    cases fs with
    | nil => simp [fits] at h
    | cons f fs =>
      simp only [fits, Bool.and_eq_true, decide_eq_true_eq] at h
      have hv := ih fs h.2
      simp only [valueOf, List.sum_cons, Nat.shiftLeft_eq, Nat.pow_add]
      calc f + valueOf ws fs * 2 ^ w
          < 2 ^ w + valueOf ws fs * 2 ^ w := by omega
        _ = (valueOf ws fs + 1) * 2 ^ w := by ring
        _ ≤ 2 ^ ws.sum * 2 ^ w := Nat.mul_le_mul_right _ (by omega)
        _ = 2 ^ w * 2 ^ ws.sum := Nat.mul_comm _ _

/-- Recomposing the fields extracted by `from_raw` yields the raw value
modulo the total width. -/
theorem valueOf_from_raw : ∀ (ws : List Nat) (r : Nat),
    valueOf ws (from_raw ws r) = r % 2 ^ ws.sum := by
  intro ws
  induction ws with
  | nil => intro r; simp [from_raw, valueOf, Nat.mod_one]
  | cons w ws ih =>
    intro r
    simp only [from_raw, valueOf, List.sum_cons]
    rw [and_mask_eq_mod, ih, Nat.pow_add, Nat.mod_mul, Nat.shiftLeft_eq,
      Nat.shiftRight_eq_div_pow]
    ring

/-- When every field fits its width and the fields end below bit `W`,
`to_raw` places each field exactly at its position: the accumulated raw
value is the mixed-radix composition shifted to the start position. -/
theorem to_raw_eq_valueOf_shift (W : Nat) : ∀ (ws fs : List Nat) (pos : Nat),
    fits ws fs = true → pos + ws.sum ≤ W →
    to_raw W ws fs pos = valueOf ws fs <<< pos := by
  intro ws
  induction ws with
  | nil =>
    intro fs pos hfit _
    cases fs with
    | nil => simp [to_raw, valueOf]
    | cons f fs => simp [fits] at hfit
  | cons w ws ih =>
    intro fs pos hfit hle
    cases fs with
    | nil => simp [fits] at hfit
    | cons f fs =>
      simp only [fits, Bool.and_eq_true, decide_eq_true_eq] at hfit
      simp only [List.sum_cons] at hle
      have hf : f <<< pos < 2 ^ (pos + w) := by
        rw [Nat.shiftLeft_eq]
        calc f * 2 ^ pos < 2 ^ w * 2 ^ pos :=
              mul_lt_mul_of_pos_right hfit.1 (Nat.two_pow_pos pos)
          _ = 2 ^ (pos + w) := by rw [← Nat.pow_add, Nat.add_comm]
      have hfW : f <<< pos < 2 ^ W :=
        Nat.lt_of_lt_of_le hf (Nat.pow_le_pow_right (by omega) (by omega))
      have ihr := ih fs (pos + w) hfit.2 (by omega)
      simp only [to_raw, Nat.mod_eq_of_lt hfW, ihr, valueOf]
      rw [lor_shiftLeft_eq_add (valueOf ws fs) hf]
      simp only [Nat.shiftLeft_eq, Nat.pow_add]
      ring

/-- Unpacking the mixed-radix composition of a fitting field list
recovers the field list. -/
theorem from_raw_valueOf : ∀ (ws fs : List Nat), fits ws fs = true →
    from_raw ws (valueOf ws fs) = fs := by
  intro ws
  induction ws with
  | nil =>
    intro fs hfit
    cases fs with
    | nil => rfl
    | cons f fs => simp [fits] at hfit
  | cons w ws ih =>
    intro fs hfit
    cases fs with
    | nil => simp [fits] at hfit
    | cons f fs =>
      simp only [fits, Bool.and_eq_true, decide_eq_true_eq] at hfit
      simp only [from_raw, valueOf]
      rw [and_mask_eq_mod, Nat.shiftLeft_eq, Nat.shiftRight_eq_div_pow,
        Nat.add_mul_mod_self_right, Nat.mod_eq_of_lt hfit.1,
        Nat.add_mul_div_right _ _ (Nat.two_pow_pos w),
        Nat.div_eq_of_lt hfit.1, Nat.zero_add, ih fs hfit.2]

/-- A successful slice write preserves the buffer length. -/
theorem writeSlice_some_length {buf : List Nat} {pos : Nat} {data buf2 : List Nat}
    (h : writeSlice buf pos data = some buf2) : buf2.length = buf.length := by
  unfold writeSlice at h
  split at h
  · cases h
    simp only [List.length_append, List.length_take, List.length_drop]
    omega
  · cases h

/-- On a buffer of exactly the right remaining length, the generated
per-field write succeeds, the bytes from the cursor on are exactly the
concatenation of the field chunks, and the cursor ends at the buffer
length. -/
theorem writeFields_ok : ∀ (ds : List (List Nat)) (buf : List Nat) (cur : Nat),
    buf.length = cur + chunkLen ds →
    writeFields ds buf cur = .ok (buf.take cur ++ ds.flatten, buf.length) := by
  intro ds
  induction ds with
  | nil =>
    intro buf cur h
    simp only [chunkLen, List.map_nil, List.sum_nil, Nat.add_zero] at h
    simp [writeFields, List.flatten, ← h, List.take_length]
  | cons d ds ih =>
    intro buf cur h
    simp only [chunkLen, List.map_cons, List.sum_cons] at h
    have hfit : cur + d.length ≤ buf.length := by omega
    have hslice : writeSlice buf cur d =
        some (buf.take cur ++ d ++ buf.drop (cur + d.length)) := by
      unfold writeSlice
      rw [if_pos hfit]
    set buf2 := buf.take cur ++ d ++ buf.drop (cur + d.length) with hbuf2
    have hlen2 : buf2.length = buf.length := writeSlice_some_length hslice
    have htake : buf2.take (cur + d.length) = buf.take cur ++ d := by
      rw [hbuf2]
      exact List.take_left' (by rw [List.length_append, List.length_take]; omega)
    simp only [writeFields, hslice]
    have ihr := ih buf2 (cur + d.length)
      (by rw [hlen2]; simp only [chunkLen]; omega)
    rw [ihr, htake, hlen2]
    simp [List.append_assoc]

/-- When the buffer is too short for the remaining chunks (and the
cursor is still inside the buffer), the generated write fails, and the
buffer it leaves behind is exactly `writeFitting`: every chunk before
the first one that does not fit has been written. -/
theorem writeFields_error : ∀ (ds : List (List Nat)) (buf : List Nat) (cur : Nat),
    cur ≤ buf.length → buf.length < cur + chunkLen ds →
    writeFields ds buf cur = .error (writeFitting ds buf cur) := by
  intro ds
  induction ds with
  | nil =>
    intro buf cur hcur h
    simp only [chunkLen, List.map_nil, List.sum_nil, Nat.add_zero] at h
    omega
  | cons d ds ih =>
    intro buf cur hcur h
    simp only [chunkLen, List.map_cons, List.sum_cons] at h
    by_cases hfit : cur + d.length ≤ buf.length
    · have hslice : writeSlice buf cur d =
          some (buf.take cur ++ d ++ buf.drop (cur + d.length)) := by
        unfold writeSlice
        rw [if_pos hfit]
      set buf2 := buf.take cur ++ d ++ buf.drop (cur + d.length) with hbuf2
      have hlen2 : buf2.length = buf.length := writeSlice_some_length hslice
      simp only [writeFields, writeFitting, hslice]
      exact ih buf2 (cur + d.length) (by omega)
        (by rw [hlen2]; simp only [chunkLen]; omega)
    · have hslice : writeSlice buf cur d = none := by
        unfold writeSlice
        rw [if_neg hfit]
      simp only [writeFields, writeFitting, hslice]

/-- The buffer left behind by a failing write has the same length as the
original buffer. -/
theorem writeFitting_length : ∀ (ds : List (List Nat)) (buf : List Nat) (cur : Nat),
    (writeFitting ds buf cur).length = buf.length := by
  intro ds
  induction ds with
  | nil => intro buf cur; rfl
  | cons d ds ih =>
    intro buf cur
    rw [writeFitting]
    cases hslice : writeSlice buf cur d with
    | none => rfl
    | some buf2 => rw [ih buf2 (cur + d.length), writeSlice_some_length hslice]

/-- Chunks of one common length sum to the array byte length. -/
theorem sum_length_const : ∀ (ds : List (List Nat)) (len : Nat),
    (∀ d ∈ ds, d.length = len) → (ds.map List.length).sum = ds.length * len := by
  intro ds
  induction ds with
  | nil => intro len _; simp
  | cons d ds ih =>
    intro len hlen
    simp only [List.map_cons, List.sum_cons, List.length_cons]
    rw [hlen d (by simp), ih len (fun e he => hlen e (by simp [he])), Nat.succ_mul]
    omega

/-- Claim C1: reading back the bytes written by `write_bytes` should
reproduce the value for every derived struct.  This FAILS on the code:
for a struct deriving `ByteStructBE` with a single `f64` field, writing
the double 1.0 (bit pattern 0x3FF0000000000000) stores its big-endian
bytes, but the generated read reconstructs the bit pattern with
`u64::from_le_bytes`, returning the bit pattern 0xF03F — the bit pattern
of a tiny subnormal double, not of 1.0.  The theorem evaluates the model
of the code at this failing input. -/
theorem f64_be_struct_roundtrip_fails :
    f64BeStruct_write 0x3FF0000000000000 (List.replicate 8 0) =
      .ok ([0x3F, 0xF0, 0, 0, 0, 0, 0, 0], 8) ∧
    f64BeStruct_read [0x3F, 0xF0, 0, 0, 0, 0, 0, 0] = 0xF03F ∧
    (0xF03F : Nat) ≠ 0x3FF0000000000000 :=
  ⟨rfl, rfl, by decide⟩

/-- Claim C2: `f64::read_bytes_default_be` should reconstruct the value
from a big-endian interpretation of the buffer bytes.  This FAILS on the
code: the source builds the bit pattern with `u64::from_le_bytes`.  On
the buffer [3F F0 00 00 00 00 00 00] the code produces bit pattern
0xF03F while the big-endian reconstruction gives 0x3FF0000000000000
(the bits of 1.0); the two bit patterns differ, and both are patterns of
finite nonzero doubles, hence unequal values. -/
theorem f64_read_be_uses_le_reconstruction :
    f64_read_be [0x3F, 0xF0, 0, 0, 0, 0, 0, 0] = 0xF03F ∧
    fromBeBytes [0x3F, 0xF0, 0, 0, 0, 0, 0, 0] = 0x3FF0000000000000 ∧
    f64_read_be [0x3F, 0xF0, 0, 0, 0, 0, 0, 0] ≠
      fromBeBytes [0x3F, 0xF0, 0, 0, 0, 0, 0, 0] :=
  ⟨rfl, rfl, by decide⟩

/-- Claim C3 (counterexample): the claim states that `to_raw` masks each
field value to its declared width, so the bits of each field region
depend only on the low bits of that field value.  This is false: with
widths 4, 8, 4 over u16, the inputs {x = 0x10, y = 0, z = 0} and
{x = 0, y = 0, z = 0} agree on the low 4 bits of x (and on y and z
entirely), yet the packed results differ in the 8-bit region of y. -/
theorem to_raw_masking_refuted :
    (0x10 &&& (1 <<< 4 - 1) : Nat) = (0x0 &&& (1 <<< 4 - 1) : Nat) ∧
    to_raw 16 [4, 8, 4] [0x10, 0x0, 0x0] 0 = 0x10 ∧
    to_raw 16 [4, 8, 4] [0x0, 0x0, 0x0] 0 = 0x0 ∧
    (to_raw 16 [4, 8, 4] [0x10, 0x0, 0x0] 0 >>> 4) &&& (1 <<< 8 - 1) ≠
      (to_raw 16 [4, 8, 4] [0x0, 0x0, 0x0] 0 >>> 4) &&& (1 <<< 8 - 1) := by
  decide

/-- Claim C3 (amended): `to_raw` performs no masking — it shifts each
full stored field value into position and ors it into the accumulator,
so an oversized field value can disturb the bits of other fields.  When
every field value fits its declared width, each field occupies exactly
its own bit range: the packed value is the mixed-radix composition of
the fields. -/
theorem to_raw_unmasked_packs_fitting (W : Nat) (ws fs : List Nat)
    (hfit : fits ws fs = true) (hsum : ws.sum ≤ W) :
    to_raw W ws fs 0 = valueOf ws fs := by
  rw [to_raw_eq_valueOf_shift W ws fs 0 hfit (by omega), Nat.shiftLeft_zero]

/-- Witness for the amended claim C3 at widths 4, 8, 4 over u16 with the
fitting field values 1, 2, 3. -/
theorem to_raw_unmasked_packs_fitting_witness :
    to_raw 16 [4, 8, 4] [1, 2, 3] 0 = valueOf [4, 8, 4] [1, 2, 3] :=
  to_raw_unmasked_packs_fitting 16 [4, 8, 4] [1, 2, 3] (by decide) (by decide)

/-- Claim C4: for a bitfield whose declared widths sum to the bit width
`W` of the base unsigned type, `to_raw (from_raw x) = x` for every `x`
below `2 ^ W`, and `from_raw (to_raw v) = v` for every field assignment
`v` in which each field fits its declared width. -/
theorem bitfield_roundtrip (W : Nat) (ws : List Nat) (hsum : ws.sum = W) :
    (∀ r : Nat, r < 2 ^ W → to_raw W ws (from_raw ws r) 0 = r) ∧
    (∀ fs : List Nat, fits ws fs = true → from_raw ws (to_raw W ws fs 0) = fs) := by
  constructor
  · intro r hr
    rw [to_raw_eq_valueOf_shift W ws (from_raw ws r) 0 (fits_from_raw ws r) (by omega),
      Nat.shiftLeft_zero, valueOf_from_raw, hsum, Nat.mod_eq_of_lt hr]
  · intro fs hfit
    rw [to_raw_eq_valueOf_shift W ws fs 0 hfit (by omega), Nat.shiftLeft_zero,
      from_raw_valueOf ws fs hfit]

/-- Witness for claim C4 at the test bitfield of the repository: base
u16, widths 4, 8, 4. -/
theorem bitfield_roundtrip_witness :
    to_raw 16 [4, 8, 4] (from_raw [4, 8, 4] 0x1234) 0 = 0x1234 ∧
    from_raw [4, 8, 4] (to_raw 16 [4, 8, 4] [0xf, 0x8f, 0x7] 0) = [0xf, 0x8f, 0x7] :=
  ⟨(bitfield_roundtrip 16 [4, 8, 4] (by decide)).1 0x1234 (by decide),
   (bitfield_roundtrip 16 [4, 8, 4] (by decide)).2 [0xf, 0x8f, 0x7] (by decide)⟩

/-- Claim C5: for every type implementing `ByteStruct`, the four
default-byte-order operations of the blanket impl coincide with the
order-free `write_bytes` / `read_bytes` — attaching an external byte
order to a self-describing composite field has no observable effect. -/
theorem self_describing_order_immunity (α : Type) (inst : ByteStructInst α)
    (v : α) (buf bs : List Nat) :
    write_bytes_default_le inst v buf = inst.write_bytes v buf ∧
    write_bytes_default_be inst v buf = inst.write_bytes v buf ∧
    read_bytes_default_le inst bs = inst.read_bytes bs ∧
    read_bytes_default_be inst bs = inst.read_bytes bs :=
  ⟨rfl, rfl, rfl, rfl⟩

/-- Claim C6: on a buffer of exactly `BYTE_LEN` bytes (the sum of the
field byte lengths), the generated `write_bytes` succeeds, the resulting
buffer is the concatenation of the field chunks — every byte position
from 0 to BYTE_LEN - 1 is assigned by exactly one field, independent of
the prior buffer contents — and the cursor after the last field equals
`BYTE_LEN`.  Moreover, for chunks of one common element length the sum
equals the array byte length `N * T::BYTE_LEN`. -/
theorem composite_write_covers (ds : List (List Nat)) (buf : List Nat)
    (h : buf.length = compositeByteLen (ds.map List.length)) :
    writeFields ds buf 0 = .ok (ds.flatten, compositeByteLen (ds.map List.length)) ∧
    (∀ len : Nat, (∀ d ∈ ds, d.length = len) →
      compositeByteLen (ds.map List.length) = arrayByteLen ds.length len) := by
  constructor
  · have hok := writeFields_ok ds buf 0 (by simpa [chunkLen] using h)
    rw [hok]
    simp [h]
  · intro len hlen
    exact sum_length_const ds len hlen

/-- Witness for claim C6 with two chunks of lengths 1 and 2 on a
three-byte buffer. -/
theorem composite_write_covers_witness :
    writeFields [[1], [2, 3]] [9, 9, 9] 0 =
      .ok ([1, 2, 3], compositeByteLen ([[1], [2, 3]].map List.length)) :=
  (composite_write_covers [[1], [2, 3]] [9, 9, 9] (by decide)).1

/-- Claim C7 (counterexample): the claim states that after a failed
`write_bytes` on a too-short buffer no byte of the destination has been
modified.  This is false: for a composite of a `u8` field (0x12)
followed by a `u16` field (0x3456) written to a two-byte buffer
[AA BB], the `u8` is written first, then the `u16` subslice panics; the
buffer at that moment is [12 BB], not the original [AA BB]. -/
theorem write_short_buffer_partial :
    writeFields [[0x12], [0x34, 0x56]] [0xAA, 0xBB] 0 = .error [0x12, 0xBB] ∧
    ([0x12, 0xBB] : List Nat) ≠ [0xAA, 0xBB] :=
  ⟨rfl, by decide⟩

/-- Claim C7 (amended): on a buffer shorter than `BYTE_LEN`, the
generated `write_bytes` reports the error (it panics at the first field
whose subslice does not fit), but the write is not atomic: every field
before the first non-fitting one has already been copied into the
buffer, and the remaining bytes keep their prior values — the buffer
left behind is exactly `writeFitting`, of unchanged length. -/
theorem write_short_buffer_error_state (ds : List (List Nat)) (buf : List Nat)
    (h : buf.length < compositeByteLen (ds.map List.length)) :
    writeFields ds buf 0 = .error (writeFitting ds buf 0) ∧
    (writeFitting ds buf 0).length = buf.length :=
  ⟨writeFields_error ds buf 0 (Nat.zero_le _) (by simpa [chunkLen] using h),
   writeFitting_length ds buf 0⟩

/-- Witness for the amended claim C7: chunks of lengths 1 and 2 on a
two-byte buffer. -/
theorem write_short_buffer_error_state_witness :
    writeFields [[5], [6, 7]] [1, 2] 0 = .error (writeFitting [[5], [6, 7]] [1, 2] 0) ∧
    (writeFitting [[5], [6, 7]] [1, 2] 0).length = ([1, 2] : List Nat).length :=
  write_short_buffer_error_state [[5], [6, 7]] [1, 2] (by decide)

/-- Claim C8: the spec scenario composite — fields `u8`, `u16`
(big-endian), `[u16; 3]` (little-endian default), `u32` (little-endian
default) — has `BYTE_LEN = 13`, and encoding
{0x12, 0x3456, [0x1020, 0x3040, 0x5060], 0x9abcdef0} produces exactly
the bytes 12 34 56 20 10 40 30 60 50 f0 de bc 9a with final cursor 13. -/
theorem demo_struct_encoding :
    demoByteLen = 13 ∧
    demo_write 0x12 0x3456 0x1020 0x3040 0x5060 0x9abcdef0 (List.replicate 13 0) =
      .ok ([0x12, 0x34, 0x56, 0x20, 0x10, 0x40, 0x30, 0x60, 0x50, 0xf0, 0xde, 0xbc, 0x9a], 13) :=
  ⟨rfl, rfl⟩

/-- Claim C9 (counterexample): the claim states that the u16 bitfield
with widths 4, 8, 4 packs {x = 0xf, y = 0x8f, z = 0x7} to 0xff2f.  The
generated `to_raw` yields 0x78ff, not 0xff2f. -/
theorem bitfield_pack_not_ff2f :
    to_raw 16 [4, 8, 4] [0xf, 0x8f, 0x7] 0 ≠ 0xff2f := by
  decide

/-- Claim C9 (amended): packing {x = 0xf, y = 0x8f, z = 0x7} in the u16
bitfield with widths 4, 8, 4 yields 0x78ff (x in bits 0-3, y in bits
4-11, z in bits 12-15), matching the repository test. -/
theorem bitfield_pack_value :
    to_raw 16 [4, 8, 4] [0xf, 0x8f, 0x7] 0 = 0x78ff := by
  decide

/-- Claim C10: every field of the struct returned by the generated
`from_raw` fits its declared bit width, for every raw input, with no
precondition: each extracted field value is the raw value masked to the
field width, hence strictly below two to the width. -/
theorem from_raw_fields_fit (ws : List Nat) (r : Nat) :
    fits ws (from_raw ws r) = true :=
  fits_from_raw ws r

end ByteStructVerif
